import Mathlib

/-!
Verification of the secondary-index maintenance layer of micro/website
(package `model`): a shallow embedding in Lean 4 of the key encoder,
index/query matching, and the `Save` / `List` / `Read` / `Delete`
orchestration of `model.go` (the indexed variant, `src/unnamed/part_001`)
and of the simple `db` variant (`src/model/model.go`), together with
theorems checking the behavioural claims about them.

Modelling conventions:
 * Go `interface{}` values that can appear in a decoded record are the
   inductive `Micro.GoValue`.  JSON round-tripping of a record is modelled
   as the identity on the decoded field map (`Micro.Entry`); the stored
   blob of a record is its decoded map.  This is exact for the
   string-valued fields every theorem below exercises.
 * Go strings are Lean `String`s; the store's native byte-lexicographic
   key order coincides with codepoint-lexicographic order on valid
   UTF-8, which `Micro.lexLt` implements on `List Char`.
 * `float64` values carry their Go `%v` rendering as an opaque string;
   no claim below depends on float arithmetic.
 * Go panics are modelled as a distinguished outcome
   (`Except.error` inside the encoder, `OpResult.panicked` at the
   operation level), separate from ordinary returned errors.
 * `strings.Title` and `unicode` classification are modelled for ASCII
   field names, which is what the repository uses.
-/

namespace Micro

/-- The runtime value kinds a decoded record field (or a caller-supplied
query value) can hold, mirroring the Go type switch in `indexToKey`.
`vnum` is `json.Number` (carrying its literal text), `vfloat` carries the
Go `%v` rendering of a `float64`, `varr`/`vobj` stand for
`[]interface {}` / `map[string]interface {}` and `vnull` for a nil
interface value. -/
inductive GoValue where
  | vstr (s : String)
  | vnum (s : String)
  | vint (n : Int)
  | vint64 (n : Int)
  | vfloat (s : String)
  | vbool (b : Bool)
  | vnull
  | varr
  | vobj
deriving DecidableEq, Repr

/-- A decoded record: the field-name to value map produced by
`json.Unmarshal` into `map[string]interface{}` (with `UseNumber` on the
`Save` path). -/
abbrev Entry := List (String × GoValue)

/-- Go map lookup `m[k]`: the zero value of `interface{}` (nil) when the
key is absent. -/
def getField (e : Entry) (k : String) : GoValue :=
  match e with
  | [] => .vnull
  | (k', v) :: rest => if k' = k then v else getField rest k

/-- The name `reflect.TypeOf(v).String()` yields for each value kind
(`"nil"` being the special case the code substitutes for a nil type). -/
def goTypeName : GoValue → String
  | .vstr _ => "string"
  | .vnum _ => "json.Number"
  | .vint _ => "int"
  | .vint64 _ => "int64"
  | .vfloat _ => "float64"
  | .vbool _ => "bool"
  | .vnull => "nil"
  | .varr => "[]interface \x7b\x7d"
  | .vobj => "map[string]interface \x7b\x7d"

/-- Go `fmt.Sprintf("%v", x)` for the value kinds that reach key
formatting.  (`varr`/`vobj` never reach it in any theorem below; their
renderings are schematic.) -/
def goFmtV : GoValue → String
  | .vstr s => s
  | .vnum s => s
  | .vint n => toString n
  | .vint64 n => toString n
  | .vfloat s => s
  | .vbool b => if b then "true" else "false"
  | .vnull => "<nil>"
  | .varr => "[]"
  | .vobj => "map[]"

/-- Codepoint comparison of characters: for valid UTF-8, byte-wise
comparison of Go strings equals codepoint-wise comparison. -/
def charLt (a b : Char) : Bool := a.toNat < b.toNat

/-- Lexicographic order on rune sequences, the store's native key
order. -/
def lexLt : List Char → List Char → Bool
  | [], [] => false
  | [], _ :: _ => true
  | _ :: _, [] => false
  | a :: as, b :: bs =>
    if charLt a b then true
    else if charLt b a then false
    else lexLt as bs

/-- Store key comparison. -/
def strLt (a b : String) : Bool := lexLt a.data b.data

/-- ASCII model of `unicode.IsLetter` (field names in this repository
are ASCII). -/
def isLetterA (c : Char) : Bool :=
  ('a' ≤ c && c ≤ 'z') || ('A' ≤ c && c ≤ 'Z')

/-- ASCII upper-casing. -/
def toUpperA (c : Char) : Char :=
  if 'a' ≤ c && c ≤ 'z' then Char.ofNat (c.toNat - 32) else c

/-- `strings.Title`: the first letter of each word (a letter following a
non-letter) is upper-cased; ASCII model. -/
def goTitleAux : Bool → List Char → List Char
  | _, [] => []
  | prevLetter, c :: rest =>
    (if !prevLetter && isLetterA c then toUpperA c else c) ::
      goTitleAux (isLetterA c) rest

def goTitle (s : String) : String := String.mk (goTitleAux false s.data)

/-- Go `%019d`: zero-padded to width 19; for negatives the sign counts
toward the width and the zeros pad after it. -/
def fmt019 (n : Int) : String :=
  if 0 ≤ n then
    let s := toString n.toNat
    String.mk (List.replicate (19 - s.length) '0') ++ s
  else
    let s := toString (-n).toNat
    "-" ++ (String.mk (List.replicate (18 - s.length) '0') ++ s)

def maxInt64 : Int := 9223372036854775807
def maxInt32 : Int := 2147483647

/-- Two's-complement wrap-around of 64-bit signed arithmetic, as Go's
`int64`/`int` subtraction performs it. -/
def wrap64 (n : Int) : Int :=
  (n + 9223372036854775808) % 18446744073709551616 - 9223372036854775808

/-- `strconv.ParseInt(s, 10, 64)` as `json.Number.Int64` calls it:
optional sign, decimal digits, value within the signed 64-bit range. -/
def parseInt64 (s : String) : Option Int :=
  let (sign, digits) :=
    match s.data with
    | '+' :: r => ((1 : Int), r)
    | '-' :: r => ((-1 : Int), r)
    | r => ((1 : Int), r)
  if digits = [] then none
  else if !digits.all (fun c => c.isDigit) then none
  else
    let v : Int := sign * (digits.foldl (fun a c => a * 10 + (c.toNat - 48)) 0 : Nat)
    if -9223372036854775808 ≤ v ∧ v ≤ 9223372036854775807 then some v else none

/-- Whether `strconv.ParseFloat` accepts the text of a `json.Number`:
optional sign, a mantissa with digits (possibly around a dot), and an
optional exponent.  (Special forms such as inf/nan/hex floats are not
reachable from JSON decoding and are not modelled.) -/
def parseFloatOk (s : String) : Bool :=
  let afterSign :=
    match s.data with
    | '+' :: r => r
    | '-' :: r => r
    | r => r
  let (intPart, rest1) := afterSign.span (fun c : Char => c.isDigit)
  let (fracPart, rest2) :=
    match rest1 with
    | '.' :: r => r.span (fun c : Char => c.isDigit)
    | r => (([] : List Char), r)
  let mantissaOk := !intPart.isEmpty || (rest1 ≠ [] && rest1.head? = some '.' && !fracPart.isEmpty)
  let expOk :=
    match rest2 with
    | [] => true
    | 'e' :: r | 'E' :: r =>
      let r' := match r with | '+' :: t => t | '-' :: t => t | t => t
      !r'.isEmpty && r'.all (fun c => c.isDigit)
    | _ => false
  mantissaOk && expOk && (rest2 = [] || rest2.head? = some 'e' || rest2.head? = some 'E')

/-- `utf8.MaxRune`. -/
def maxRuneChar : Char := Char.ofNat 0x10FFFF

/-- One reversed rune: Go computes `utf8.MaxRune - char` as a raw
`rune`; if that lands in the surrogate range, `string([]rune)` encodes
it as U+FFFD. -/
def descRune (c : Char) : Char :=
  let n : Nat := 0x10FFFF - c.toNat
  if 0xD800 ≤ n ∧ n ≤ 0xDFFF then Char.ofNat 0xFFFD else Char.ofNat n

/-- UTF-8 bytes of one scalar value. -/
def utf8EncodeChar (c : Char) : List Nat :=
  let n := c.toNat
  if n < 0x80 then [n]
  else if n < 0x800 then [0xC0 + n / 64, 0x80 + n % 64]
  else if n < 0x10000 then
    [0xE0 + n / 4096, 0x80 + n / 64 % 64, 0x80 + n % 64]
  else
    [0xF0 + n / 0x40000, 0x80 + n / 4096 % 64, 0x80 + n / 64 % 64, 0x80 + n % 64]

def b32HexAlphabet : List Char := "0123456789ABCDEFGHIJKLMNOPQRSTUV".data

/-- One input group (1 to 5 bytes) of base32hex: its bytes as a bit
string padded with zero bits to a multiple of 5, encoded 5 bits per
character, then `=`-padded to 8 characters. -/
def b32Chunk (chunk : List Nat) : List Char :=
  let bits := chunk.length * 8
  let outChars := (bits + 4) / 5
  let value := chunk.foldl (fun a b => a * 256 + b) 0 * 2 ^ (outChars * 5 - bits)
  (List.range outChars).map
      (fun j => b32HexAlphabet.getD (value / 2 ^ ((outChars - 1 - j) * 5) % 32) '?')
    ++ List.replicate (8 - outChars) '='

/-- `base32.HexEncoding.EncodeToString` over the UTF-8 bytes of `s`. -/
def base32hexStr (s : String) : String :=
  String.mk (List.flatten ((List.toChunks 5 (s.data.flatMap utf8EncodeChar)).map b32Chunk))

/-- `OrderType`: `"unordered"`, `"ascending"`, `"descending"`. -/
inductive OrderType where
  | unordered
  | asc
  | desc
deriving DecidableEq, Repr

/-- `Order`: the ordering half of an index (order field may differ from
the filter field). -/
structure Order where
  fieldName : String := ""
  type : OrderType
deriving DecidableEq, Repr

/-- `Index`: one declared index.  `type` is the index-kind string
(`"eq"` in all constructors of the source). -/
structure Index where
  fieldName : String := ""
  type : String := ""
  order : Order
  unique : Bool := false
  stringOrderPadLength : Nat := 0
  base32Encode : Bool := false
deriving DecidableEq, Repr

/-- `Query`: embeds the `Index` it was built from plus its own `Order`
and value (the embedded struct's promoted fields `q.FieldName`/`q.Type`
read from `index`). -/
structure Query where
  index : Index
  order : Order
  value : GoValue
  offset : Int := 0
  limit : Int := 0
deriving DecidableEq, Repr

/-- `ByEquality`: an equality index on `fieldName`, ascending on the
same field, pad length 16, no base32. -/
def ByEquality (fieldName : String) : Index :=
  { fieldName := fieldName
    type := "eq"
    order := { type := .asc, fieldName := fieldName }
    stringOrderPadLength := 16
    base32Encode := false }

/-- `defaultIndex`: the implicit identity index — `ByEquality("id")`
made unordered. -/
def defaultIndex : Index :=
  let idIndex := ByEquality "id"
  { idIndex with order := { idIndex.order with type := .unordered } }

/-- `Index.ToQuery`. -/
def Index.ToQuery (i : Index) (value : GoValue) : Query :=
  { index := i, value := value, order := i.order }

/-- `Equals`: an equality query on `fieldName`; note it always carries
ascending order (both in the embedded index and the query's own order). -/
def Equals (fieldName : String) (value : GoValue) : Query :=
  { index :=
      { fieldName := fieldName
        type := "eq"
        order := { fieldName := fieldName, type := .asc } }
    value := value
    order := { fieldName := fieldName, type := .asc } }

/-- `indexMatchesQuery`: field name, index kind and order type must all
agree. -/
def indexMatchesQuery (i : Index) (q : Query) : Bool :=
  i.fieldName == q.index.fieldName && i.type == q.index.type &&
    i.order.type == q.order.type

/-- `indexesMatch`. -/
def indexesMatch (i j : Index) : Bool :=
  i.fieldName == j.fieldName && i.type == j.type &&
    i.order.type == j.order.type

/-- `indexPrefix`: `by<Field>` for unordered, `by[Desc]Ordered<Field>`
for ordered indexes, the field name title-cased. -/
def indexPrefix (i : Index) : String :=
  if i.order.type ≠ OrderType.unordered then
    let descStr := if i.order.type = OrderType.desc then "Desc" else ""
    "by" ++ descStr ++ "Ordered" ++ goTitle i.fieldName
  else
    "by" ++ goTitle i.fieldName

/-- `getOrderedStringFieldKey`: reverse each rune for descending order,
right-pad to the index's pad length (space ascending, `utf8.MaxRune`
descending), and base32hex-armor descending keys when configured,
remapping the armor's `=` to `0`. -/
def getOrderedStringFieldKey (i : Index) (fieldValue : String) : String :=
  let runes :=
    if i.order.type = OrderType.desc then fieldValue.data.map descRune
    else fieldValue.data
  let runes :=
    if runes.length < i.stringOrderPadLength then
      runes ++ List.replicate (i.stringOrderPadLength - runes.length)
        (if i.order.type = OrderType.desc then maxRuneChar else ' ')
    else runes
  let bs := String.mk runes
  if i.order.type = OrderType.desc ∧ i.base32Encode then
    (base32hexStr bs).replace "=" "0"
  else bs

/-- The colon-joined key format: `indexToKey` starts from `"%v:%v"` and
appends `":%v"` per extra component, which renders the component list
joined by `:`. -/
def joinColon : List String → String
  | [] => ""
  | [x] => x
  | x :: rest => x ++ ":" ++ joinColon rest

/-- The order-fragment encoding of one value: the inner type switch of
`indexToKey`.  `Except.error` is a Go panic carrying the panic
message. -/
def encodeOrderValue (i : Index) (v : GoValue) (orderFieldKey : String) :
    Except String String :=
  match v with
  | .vstr s =>
    if i.order.type ≠ OrderType.unordered then .ok (getOrderedStringFieldKey i s)
    else .ok s
  | .vnum s =>
    match parseInt64 s with
    | some n =>
      if i.order.type = OrderType.desc then .ok (fmt019 (wrap64 (maxInt64 - n)))
      else .ok (fmt019 n)
    | none =>
      if parseFloatOk s then
        if i.order.type = OrderType.desc then .ok ("descFloat(" ++ s ++ ")")
        else .ok s
      else
        .error ("bug in code, unhandled json.Number type: json.Number for field "
          ++ i.fieldName)
  | .vint64 n =>
    if i.order.type = OrderType.desc then .ok (fmt019 (wrap64 (maxInt64 - n)))
    else .ok (fmt019 n)
  | .vfloat s =>
    if i.order.type = OrderType.desc then .ok ("descFloat(" ++ s ++ ")")
    else .ok s
  | .vint n =>
    if i.order.type = OrderType.desc then .ok (fmt019 (wrap64 (maxInt32 - n)))
    else .ok (fmt019 n)
  | .vbool b => .ok (goFmtV (.vbool b))
  | v => .error ("bug in code, unhandled type: " ++ goTypeName v ++ " for field "
      ++ orderFieldKey)

/-- The field whose value the ordered fragment of a key encodes: the
order field when the filter and order fields differ (and the order field
is set), else the filter field — the `orderFieldKey` variable of
`indexToKey`. -/
def orderFieldKeyOf (i : Index) : String :=
  if i.fieldName != i.order.fieldName && i.order.fieldName != "" then i.order.fieldName
  else i.fieldName

/-- `indexToKey`: build the store key for index `i` and record `entry`;
`appendID` appends the record identity to keep keys unique per record.
The descending `float64` encoding (`math.MaxFloat64 - v`) is rendered
schematically by `encodeOrderValue`; no theorem depends on it. -/
def indexToKey (ns : String) (i : Index) (id : GoValue) (entry : Entry)
    (appendID : Bool) : Except String String := do
  let filterFieldValue := getField entry i.fieldName
  let diffOrder : Bool :=
    i.fieldName != i.order.fieldName && i.order.fieldName != ""
  let orderFieldKey := orderFieldKeyOf i
  let orderFieldValue := getField entry orderFieldKey
  let core : List String ←
    if i.type = "eq" then do
      let frag ← encodeOrderValue i orderFieldValue orderFieldKey
      if diffOrder then pure [goFmtV filterFieldValue, frag] else pure [frag]
    else pure []
  let tail := if appendID then [goFmtV id] else []
  pure (joinColon ([ns, indexPrefix i] ++ core ++ tail))

/-- `queryToListKey`: the key (or key prefix) a query scans.  A nil
value scans the bare index prefix; a filter-by-X-order-by-Y index embeds
the raw filter value; otherwise the key is built like a save key without
the identity suffix. -/
def queryToListKey (ns : String) (i : Index) (q : Query) : Except String String :=
  if q.value = GoValue.vnull then .ok (joinColon [ns, indexPrefix i])
  else if i.fieldName ≠ i.order.fieldName ∧ i.order.fieldName ≠ "" then
    .ok (joinColon [ns, indexPrefix i, goFmtV q.value])
  else
    indexToKey ns i (.vstr "") [(i.fieldName, q.value)] false

/-- The stored blob of a record: modelled as its decoded field map (JSON
serialization treated as injective and round-tripping). -/
abbrev Blob := Entry

/-- The abstract ordered key-value store: an association list kept
sorted by `strLt`, so a prefix scan (a filter) returns records in the
store's native key order. -/
abbrev Store := List (String × Blob)

/-- `store.Write`: upsert, keeping the store sorted by key. -/
def storeWrite (st : Store) (k : String) (v : Blob) : Store :=
  match st with
  | [] => [(k, v)]
  | (k', v') :: rest =>
    if k = k' then (k, v) :: rest
    else if strLt k k' then (k, v) :: (k', v') :: rest
    else (k', v') :: storeWrite rest k v

/-- `store.Delete`. -/
def storeDelete (st : Store) (k : String) : Store :=
  st.filter (fun kv => kv.1 != k)

/-- `store.Read(prefix, store.ReadPrefix())`: every record whose key
starts with the prefix, in key order. -/
def readPrefix (st : Store) (p : String) : List (String × Blob) :=
  st.filter (fun kv => p.data.isPrefixOf kv.1.data)

/-- `ModelOptions`. -/
structure ModelOptions where
  debug : Bool := false
  idIndex : Index
deriving DecidableEq, Repr

/-- The `model` struct: namespace, declared indexes, options. -/
structure Model where
  ns : String
  indexes : List Index
  options : ModelOptions
deriving DecidableEq, Repr

/-- `NewModel`: a zero-valued (empty-`Type`) id index option falls back
to the default identity index. -/
def NewModel (ns : String) (indexes : List Index) (options : Option ModelOptions) :
    Model :=
  let debug := match options with | some o => o.debug | none => false
  let idIndex := match options with
    | some o => o.idIndex
    | none => { fieldName := "", type := "", order := { fieldName := "", type := .unordered } }
  let idIndex := if idIndex.type = "" then defaultIndex else idIndex
  { ns := ns, indexes := indexes, options := { debug := debug, idIndex := idIndex } }

/-- The outcome of a model operation: a value, a returned Go error, or
a propagating panic. -/
inductive OpResult (α : Type) where
  | ok (a : α)
  | goErr (msg : String)
  | panicked (msg : String)
deriving DecidableEq, Repr

/-- A store side effect issued by an operation. -/
inductive Op where
  | write (k : String) (v : Blob)
  | del (k : String)
deriving DecidableEq, Repr

/-- The first declared index (the identity index appended last) matching
the query — the loop head shared by `List`, `Read` and `Save`. -/
def findMatchingIndex (q : Query) : List Index → Option Index
  | [] => none
  | i :: rest => if indexMatchesQuery i q then some i else findMatchingIndex q rest

/-- `model.List`: resolve the matching index, prefix-scan the store and
decode every blob (the JSON array decode is the identity on modelled
blobs). -/
def ListOp (M : Model) (q : Query) (st : Store) : OpResult (List Entry) :=
  match findMatchingIndex q (M.indexes ++ [M.options.idIndex]) with
  | none =>
    .goErr ("For query type '" ++ q.index.type ++ "', field '" ++ q.index.fieldName
      ++ "' does not match any indexes")
  | some i =>
    match queryToListKey M.ns i q with
    | .error msg => .panicked msg
    | .ok k => .ok ((readPrefix st k).map (fun kv => kv.2))

/-- `model.Read`: like `List` but demands exactly one result. -/
def ReadOp (M : Model) (q : Query) (st : Store) : OpResult Entry :=
  match findMatchingIndex q (M.indexes ++ [M.options.idIndex]) with
  | none =>
    .goErr ("For query type '" ++ q.index.type ++ "', field '" ++ q.index.fieldName
      ++ "' does not match any indexes")
  | some i =>
    match queryToListKey M.ns i q with
    | .error msg => .panicked msg
    | .ok k =>
      match readPrefix st k with
      | [] => .goErr "not found"
      | [kv] => .ok kv.2
      | _ => .goErr "multiple records found"

/-- The uniqueness pre-pass of `Save`: for each `unique` index, an
equality lookup on the proposed value; a hit under a different identity
is a violation, several hits are their own error. -/
def uniqueCheck (M : Model) (m : Entry) (st : Store) : List Index → OpResult Unit
  | [] => .ok ()
  | i :: rest =>
    if !i.unique then uniqueCheck M m st rest
    else
      match ListOp M (i.ToQuery (getField m i.fieldName)) st with
      | .goErr msg => .goErr msg
      | .panicked msg => .panicked msg
      | .ok res =>
        match res with
        | [] => uniqueCheck M m st rest
        | [e] =>
          if getField e M.options.idIndex.fieldName != getField m M.options.idIndex.fieldName
          then .goErr "Unique index violated"
          else uniqueCheck M m st rest
        | _ => .goErr "Multiple entries found for unique index"

/-- The result of a mutating operation: its outcome, the store it
leaves behind, and the store side effects it issued in order. -/
structure SaveRes where
  outcome : OpResult Unit
  store : Store
  ops : List Op
deriving DecidableEq, Repr

/-- The stale-key cleanup of one `Save` loop iteration: when a previous
version exists, the index is not identity-shaped and the indexed field
value changed, delete the key computed from the previous version
(`Except.error` being a panic from key construction). -/
def staleDel (ns : String) (blob : Entry) (id : GoValue) (old? : Option Entry)
    (i : Index) (st : Store) (ops : List Op) : Except String (Store × List Op) :=
  match old? with
  | none => .ok (st, ops)
  | some o =>
    if !(indexesMatch defaultIndex i)
        && (getField o i.fieldName != getField blob i.fieldName) then
      match indexToKey ns i id o true with
      | .error msg => .error msg
      | .ok k => .ok (storeDelete st k, ops ++ [.del k])
    else .ok (st, ops)

/-- The per-index write loop of `Save`: delete the stale key when a
previous version exists with a changed field value (never for the
identity-shaped index), then write the new key with the serialized
record. -/
def saveLoop (ns : String) (blob : Entry) (id : GoValue) (old? : Option Entry) :
    List Index → Store → List Op → SaveRes
  | [], st, ops => ⟨.ok (), st, ops⟩
  | i :: rest, st, ops =>
    match staleDel ns blob id old? i st ops with
    | .error msg => ⟨.panicked msg, st, ops⟩
    | .ok (st1, ops1) =>
      match indexToKey ns i id blob true with
      | .error msg => ⟨.panicked msg, st1, ops1⟩
      | .ok k => saveLoop ns blob id old? rest (storeWrite st1 k blob) (ops1 ++ [.write k blob])

/-- `model.Save` on the already-decoded record `m` (serialization is
modelled as the identity, see the header): fetch the previous version by
identity, run the uniqueness checks, then delete stale keys and write
one key per index (declared indexes, then the identity index). -/
def Save (M : Model) (m : Entry) (st : Store) : SaveRes :=
  match ListOp M (M.options.idIndex.ToQuery (getField m M.options.idIndex.fieldName)) st with
  | .goErr msg => ⟨.goErr msg, st, []⟩
  | .panicked msg => ⟨.panicked msg, st, []⟩
  | .ok oldEntryList =>
    match uniqueCheck M m st M.indexes with
    | .goErr msg => ⟨.goErr msg, st, []⟩
    | .panicked msg => ⟨.panicked msg, st, []⟩
    | .ok _ =>
      saveLoop M.ns m (getField m M.options.idIndex.fieldName) oldEntryList.head?
        (M.indexes ++ [M.options.idIndex]) st []

/-- `model.Delete`: only the default-identity query shape is accepted;
the record is resolved by listing, then its identity-index key (and only
that key) is deleted. -/
def Delete (M : Model) (q : Query) (st : Store) : SaveRes :=
  if !(indexMatchesQuery defaultIndex q) then
    ⟨.goErr "Delete query does not match default index", st, []⟩
  else
    match ListOp M q st with
    | .goErr msg => ⟨.goErr msg, st, []⟩
    | .panicked msg => ⟨.panicked msg, st, []⟩
    | .ok results =>
      match results with
      | [] => ⟨.goErr "No entry found to delete", st, []⟩
      | e :: _ =>
        let idv := getField e M.options.idIndex.fieldName
        match indexToKey M.ns defaultIndex idv [(M.options.idIndex.fieldName, idv)] true with
        | .error msg => ⟨.panicked msg, st, []⟩
        | .ok key => ⟨.ok (), storeDelete st key, [.del key]⟩

end Micro

namespace SimpleDB

/-- The simple `db` variant of `src/model/model.go`: its `Index` has a
field name, an index-kind string and a boolean ordering flag. -/
structure Index where
  fieldName : String
  type : String
  ordering : Bool
deriving DecidableEq, Repr

open Micro in
/-- `model.go`'s identity resolution in `db.Save`: the record must
marshal a nonempty string under `"ID"`, else under `"id"`. -/
def dbResolveId (m : Entry) : Option String :=
  match getField m "ID" with
  | .vstr s => if s.length > 0 then some s else
      match getField m "id" with
      | .vstr t => if t.length > 0 then some t else none
      | _ => none
  | _ =>
      match getField m "id" with
      | .vstr t => if t.length > 0 then some t else none
      | _ => none

open Micro in
/-- `indexToSaveKey` of `model.go`: `by<FieldName>:<value>:<id>` with no
title-casing and no order encoding. -/
def indexToSaveKey (i : Index) (id : String) (m : Entry) : String :=
  "by" ++ i.fieldName ++ ":" ++ goFmtV (getField m i.fieldName) ++ ":" ++ id

open Micro in
/-- The index-write loop of `db.Save`. -/
def dbSaveLoop (id : String) (m : Entry) : List Index → Store → List Op → Store × List Op
  | [], s, ops => (s, ops)
  | i :: rest, s, ops =>
    let k := indexToSaveKey i id m
    dbSaveLoop id m rest (storeWrite s k m) (ops ++ [.write k m])

open Micro in
/-- `db.Save` of `model.go`: resolve the identity (an error before any
store write when absent or empty), write the record under its bare id,
then under one key per index. -/
def dbSave (indexes : List Index) (m : Entry) (st : Store) : SaveRes :=
  match dbResolveId m with
  | none => ⟨.goErr "ID of objects must marshal to JSON key 'ID' or 'id'", st, []⟩
  | some id =>
    let st1 := storeWrite st id m
    let (st2, ops) := dbSaveLoop id m indexes st1 [Op.write id m]
    ⟨.ok (), st2, ops⟩

end SimpleDB

namespace Micro

/-! ### Facts about the store's key order and prefix matching -/

lemma charLt_irrefl (c : Char) : charLt c c = false := by
  simp [charLt]

lemma lexLt_cons_of_lt {a b : Char} (h : charLt a b = true) (r1 r2 : List Char) :
    lexLt (a :: r1) (b :: r2) = true := by
  simp [lexLt, h]

lemma lexLt_cons_of_gt {a b : Char} (h : charLt b a = true) (r1 r2 : List Char) :
    lexLt (a :: r1) (b :: r2) = false := by
  have h2 : charLt a b = false := by
    simp [charLt] at h ⊢
    omega
  simp [lexLt, h2, h]

lemma lexLt_cons_self (a : Char) (r1 r2 : List Char) :
    lexLt (a :: r1) (a :: r2) = lexLt r1 r2 := by
  simp [lexLt, charLt_irrefl]

lemma lexLt_append_left (p a b : List Char) :
    lexLt (p ++ a) (p ++ b) = lexLt a b := by
  induction p with
  | nil => rfl
  | cons x xs ih => simpa [lexLt, charLt_irrefl] using ih

lemma isPrefixOf_append_left (p a b : List Char) :
    (p ++ a).isPrefixOf (p ++ b) = a.isPrefixOf b := by
  induction p with
  | nil => rfl
  | cons x xs ih => simpa [List.isPrefixOf] using ih

lemma isPrefixOf_self_append (a b : List Char) : a.isPrefixOf (a ++ b) = true := by
  induction a with
  | nil => simp [List.isPrefixOf]
  | cons x xs ih => simp [List.isPrefixOf, ih]

lemma isPrefixOf_cons_ne {a b : Char} (h : a ≠ b) (r1 r2 : List Char) :
    (a :: r1).isPrefixOf (b :: r2) = false := by
  simp [List.isPrefixOf, h]

/-- A list is never a prefix of another list of the same length followed
by anything, unless the two lists are equal. -/
lemma isPrefixOf_append_of_len_eq {a : List Char} :
    ∀ {b : List Char} (r : List Char), a.length = b.length → a ≠ b →
      a.isPrefixOf (b ++ r) = false := by
  induction a with
  | nil =>
    intro b r hlen hne
    cases b with
    | nil => exact absurd rfl hne
    | cons y ys => simp at hlen
  | cons x xs ih =>
    intro b r hlen hne
    cases b with
    | nil => simp at hlen
    | cons y ys =>
      by_cases hxy : x = y
      · subst hxy
        have hne' : xs ≠ ys := fun h => hne (by rw [h])
        have hlen' : xs.length = ys.length := by simpa using hlen
        simpa [List.isPrefixOf] using ih r hlen' hne'
      · simp [List.isPrefixOf, hxy]

lemma indexMatchesQuery_toQuery (i : Index) (v : GoValue) :
    indexMatchesQuery i (i.ToQuery v) = true := by
  simp [indexMatchesQuery, Index.ToQuery]

/-! ### C9: `Delete(Equals("id", v))` can never match the default index -/

/-- C9: a query built with the public `Equals` constructor always carries
ascending order while the default identity index is unordered, and since
`indexMatchesQuery` compares order types, `Delete(Equals("id", v))`
fails with the delete-query-mismatch error for every value and every
store, leaving the store untouched and issuing no operation. -/
theorem c9_delete_equals_id_mismatch (M : Model) (f : String) (v w : GoValue)
    (st : Store) :
    (Equals f v).order.type = OrderType.asc ∧
    defaultIndex.order.type = OrderType.unordered ∧
    Delete M (Equals "id" w) st =
      ⟨.goErr "Delete query does not match default index", st, []⟩ := by
  refine ⟨rfl, rfl, ?_⟩
  rfl

/-! ### C3: unsupported value kinds make key construction panic -/

/-- The value kinds the `indexToKey` type switch has no case for. -/
def unsupportedKind : GoValue → Bool
  | .vnull | .varr | .vobj => true
  | _ => false

lemma encodeOrderValue_unsupported (i : Index) (v : GoValue) (ofk : String)
    (h : unsupportedKind v = true) :
    encodeOrderValue i v ofk =
      .error ("bug in code, unhandled type: " ++ goTypeName v ++ " for field " ++ ofk) := by
  cases v <;> simp_all [unsupportedKind, encodeOrderValue]

/-- C3 (amended): for every equality index whose order-field value has a
kind outside the supported ones (string, `json.Number`, `int64`,
`float64`, `int`, `bool`), key construction aborts with a Go panic —
not a returned, recoverable error — whose message names the field and
the runtime type. -/
theorem c3_unsupported_kind_panics (ns : String) (i : Index) (id : GoValue)
    (entry : Entry) (appendID : Bool) (heq : i.type = "eq")
    (h : unsupportedKind (getField entry (orderFieldKeyOf i)) = true) :
    indexToKey ns i id entry appendID =
      .error ("bug in code, unhandled type: "
        ++ goTypeName (getField entry (orderFieldKeyOf i))
        ++ " for field " ++ orderFieldKeyOf i) := by
  unfold indexToKey
  rw [heq]
  simp only [encodeOrderValue_unsupported i _ _ h]
  cases hb : (i.fieldName != i.order.fieldName && i.order.fieldName != "") <;>
    simp [hb, Except.bind]

/-- Witness for C3: a record whose indexed field holds a nil value makes
`indexToKey` panic with the message naming the field and `nil`. -/
theorem c3_unsupported_kind_panics_witness :
    indexToKey "user" (ByEquality "x") (GoValue.vstr "1") [("x", GoValue.vnull)] true =
      .error ("bug in code, unhandled type: "
        ++ goTypeName (getField [("x", GoValue.vnull)] (orderFieldKeyOf (ByEquality "x")))
        ++ " for field " ++ orderFieldKeyOf (ByEquality "x")) :=
  c3_unsupported_kind_panics "user" (ByEquality "x") (GoValue.vstr "1")
    [("x", GoValue.vnull)] true rfl (by decide)

/-- The model, record and store of the C3 counterexample: one declared
index on field `x`, and a record whose `x` value is nil. -/
def m3c : Entry := [("id", GoValue.vstr "1"), ("x", GoValue.vnull)]

def M3c : Model :=
  { ns := "user", indexes := [ByEquality "x"]
    options := { debug := false, idIndex := defaultIndex } }

/-- Counterexample for C3 as stated: saving a record whose indexed field
holds an unsupported value kind does not return an error condition to
the caller — the operation panics (crashes), as the distinguished
`panicked` outcome shows. -/
theorem c3_counterexample :
    (Save M3c m3c []).outcome =
      OpResult.panicked "bug in code, unhandled type: nil for field x" := rfl

/-! ### C4: identity validation -/

/-- The model and record of the C4 counterexample: the indexed `model`
variant with a record whose identity value is the empty string. -/
def m4c : Entry := [("id", GoValue.vstr ""), ("slug", GoValue.vstr "x")]

def M4c : Model :=
  { ns := "user", indexes := [ByEquality "slug"]
    options := { debug := false, idIndex := defaultIndex } }

/-- Counterexample for C4 as stated: the indexed `model.Save` performs
no identity validation — a record whose identity value is the empty
string is saved successfully, with both index keys written (their
identity segments empty), instead of failing with a missing-identity
error before any writes. -/
theorem c4_counterexample :
    (Save M4c m4c []).outcome = OpResult.ok () ∧
    (Save M4c m4c []).ops =
      [Op.write "user:byOrderedSlug:x               :" m4c,
       Op.write "user:byId::" m4c] := ⟨rfl, rfl⟩

/-- C4 (amended): only the simple `db` variant (`src/model/model.go`)
validates the identity: when the record marshals no nonempty string
under `"ID"` or `"id"`, its `Save` fails with the identity error before
issuing any store write, leaving the store unchanged. -/
theorem c4_simpledb_missing_id_fails (indexes : List SimpleDB.Index) (m : Entry)
    (st : Store) (h : SimpleDB.dbResolveId m = none) :
    SimpleDB.dbSave indexes m st =
      ⟨.goErr "ID of objects must marshal to JSON key 'ID' or 'id'", st, []⟩ := by
  unfold SimpleDB.dbSave
  rw [h]

/-- Witness for C4: a record with no identity field at all. -/
theorem c4_simpledb_missing_id_fails_witness :
    SimpleDB.dbSave [⟨"name", "eq", false⟩] [("name", GoValue.vstr "x")] [] =
      ⟨.goErr "ID of objects must marshal to JSON key 'ID' or 'id'", [], []⟩ :=
  c4_simpledb_missing_id_fails [⟨"name", "eq", false⟩] [("name", GoValue.vstr "x")] [] rfl

/-! ### C5: descending integer encoding -/

/-- A descending equality index on the integer field `age`. -/
def descIntIdx5 : Index :=
  { ByEquality "age" with order := { fieldName := "age", type := OrderType.desc } }

/-- C5 (evaluation at the failing input): the `int` case of `indexToKey`
subtracts the value from `math.MaxInt32`, not from the maximum value
representable in a 64-bit Go `int`.  For the non-negative values
2147483648 ≤ 2147483649 the descending `int` keys come out negative and
in ascending lexicographic order — the larger value's key sorts after
the smaller value's key, so the encoding does not reverse numeric order
— while the `int64` case at the same values subtracts from
`math.MaxInt64` and does reverse it. -/
theorem c5_int_desc_maxint32_bug :
    indexToKey "u" descIntIdx5 (GoValue.vstr "1")
        [("id", GoValue.vstr "1"), ("age", GoValue.vint 2147483648)] true =
      .ok "u:byDescOrderedAge:-000000000000000001:1" ∧
    indexToKey "u" descIntIdx5 (GoValue.vstr "1")
        [("id", GoValue.vstr "1"), ("age", GoValue.vint 2147483649)] true =
      .ok "u:byDescOrderedAge:-000000000000000002:1" ∧
    strLt "u:byDescOrderedAge:-000000000000000001:1"
        "u:byDescOrderedAge:-000000000000000002:1" = true ∧
    indexToKey "u" descIntIdx5 (GoValue.vstr "1")
        [("id", GoValue.vstr "1"), ("age", GoValue.vint64 2147483648)] true =
      .ok "u:byDescOrderedAge:9223372034707292159:1" ∧
    indexToKey "u" descIntIdx5 (GoValue.vstr "1")
        [("id", GoValue.vstr "1"), ("age", GoValue.vint64 2147483649)] true =
      .ok "u:byDescOrderedAge:9223372034707292158:1" ∧
    strLt "u:byDescOrderedAge:9223372034707292158:1"
        "u:byDescOrderedAge:9223372034707292159:1" = true :=
  ⟨rfl, rfl, rfl, rfl, rfl, rfl⟩

/-! ### C6, C7: order preservation of the string encodings -/

lemma toNat_ofNat_of_valid {n : Nat} (h : n.isValidChar) : (Char.ofNat n).toNat = n := by
  simp [Char.ofNat, h, Char.ofNatAux, Char.toNat, UInt32.toNat, UInt32.ofNat']

lemma char_toNat_lt (c : Char) : c.toNat < 1114112 := by
  rcases c.valid with h | ⟨h1, h2⟩
  · exact Nat.lt_trans h (by norm_num)
  · exact h2

/-- A character whose reversed rune is a valid scalar (not in the band
that `utf8.MaxRune - c` maps onto the surrogate range) and that is not
NUL (whose reversed rune equals the descending pad character). -/
def goodDescChar (c : Char) : Prop :=
  0 < c.toNat ∧ (c.toNat < 0x102000 ∨ 0x1027FF < c.toNat)

instance (c : Char) : Decidable (goodDescChar c) := by
  unfold goodDescChar
  infer_instance

lemma descRune_toNat {c : Char} (h : c.toNat < 0x102000 ∨ 0x1027FF < c.toNat) :
    (descRune c).toNat = 0x10FFFF - c.toNat := by
  have hband : ¬(0xD800 ≤ 0x10FFFF - c.toNat ∧ 0x10FFFF - c.toNat ≤ 0xDFFF) := by
    omega
  unfold descRune
  rw [if_neg hband]
  apply toNat_ofNat_of_valid
  unfold Nat.isValidChar
  omega

lemma descRune_lt {c d : Char} (hc : goodDescChar c) (hd : goodDescChar d)
    (h : c.toNat < d.toNat) : (descRune d).toNat < (descRune c).toNat := by
  have hub := char_toNat_lt d
  rw [descRune_toNat hc.2, descRune_toNat hd.2]
  have := char_toNat_lt c
  omega

lemma descRune_congr {c d : Char} (h : c.toNat = d.toNat) : descRune c = descRune d := by
  unfold descRune
  rw [h]

lemma maxRuneChar_toNat : maxRuneChar.toNat = 0x10FFFF := by decide

/-- The encoded bytes of a descending, un-armored string fragment whose
value fits in the pad length. -/
lemma getOrdered_desc_data (i : Index) (s : String)
    (hdesc : i.order.type = OrderType.desc) (hb32 : i.base32Encode = false)
    (hl : s.data.length ≤ i.stringOrderPadLength) :
    (getOrderedStringFieldKey i s).data =
      s.data.map descRune ++
        List.replicate (i.stringOrderPadLength - s.data.length) maxRuneChar := by
  unfold getOrderedStringFieldKey
  rw [hdesc, hb32]
  by_cases h : (s.data.map descRune).length < i.stringOrderPadLength
  · simp [h]
    intro h2
    have hsl : s.length = s.data.length := rfl
    simp only [List.length_map] at h
    omega
  · have hlen : s.data.length = i.stringOrderPadLength := by
      simp only [List.length_map] at h
      omega
    simp [h, hlen]

/-- The encoded bytes of an ascending string fragment. -/
lemma getOrdered_asc_data (i : Index) (s : String)
    (hasc : i.order.type = OrderType.asc) :
    (getOrderedStringFieldKey i s).data =
      if s.data.length < i.stringOrderPadLength then
        s.data ++ List.replicate (i.stringOrderPadLength - s.data.length) ' '
      else s.data := by
  unfold getOrderedStringFieldKey
  rw [hasc]
  by_cases h : s.data.length < i.stringOrderPadLength <;> simp [h]

/-- Core of C6: on character lists within the pad length whose
characters are all `goodDescChar`, the padded reversed-rune encoding
strictly reverses lexicographic order. -/
lemma lexLt_desc_enc :
    ∀ (L : Nat) (la lb : List Char),
      (∀ c ∈ la, goodDescChar c) → (∀ c ∈ lb, goodDescChar c) →
      la.length ≤ L → lb.length ≤ L → lexLt la lb = true →
      lexLt (lb.map descRune ++ List.replicate (L - lb.length) maxRuneChar)
            (la.map descRune ++ List.replicate (L - la.length) maxRuneChar) = true := by
  intro L la
  induction la generalizing L with
  | nil =>
    intro lb ha hb hla hlb h
    cases lb with
    | nil => simp [lexLt] at h
    | cons d ds =>
      obtain ⟨L', rfl⟩ : ∃ L', L = L' + 1 :=
        ⟨L - 1, by have := hlb; simp at this; omega⟩
      have hd := hb d (by simp)
      have hlt : charLt (descRune d) maxRuneChar = true := by
        have h1 := descRune_toNat hd.2
        have h2 := maxRuneChar_toNat
        have h3 := hd.1
        simp only [charLt, h1, h2, decide_eq_true_eq]
        omega
      simp only [List.map_cons, List.map_nil, List.nil_append, List.cons_append,
        Nat.sub_zero, List.replicate_succ]
      exact lexLt_cons_of_lt hlt _ _
  | cons x xs ih =>
    intro lb ha hb hla hlb h
    cases lb with
    | nil => simp [lexLt] at h
    | cons y ys =>
      have hx := ha x (by simp)
      have hy := hb y (by simp)
      have hxs : ∀ c ∈ xs, goodDescChar c := fun c hc => ha c (by simp [hc])
      have hys : ∀ c ∈ ys, goodDescChar c := fun c hc => hb c (by simp [hc])
      obtain ⟨L', rfl⟩ : ∃ L', L = L' + 1 :=
        ⟨L - 1, by have := hla; simp at this; omega⟩
      cases h1 : charLt x y with
      | true =>
        have hlt : charLt (descRune y) (descRune x) = true := by
          simp only [charLt, decide_eq_true_eq] at h1 ⊢
          exact descRune_lt hx hy h1
        simp only [List.map_cons, List.cons_append]
        exact lexLt_cons_of_lt hlt _ _
      | false =>
        cases h2 : charLt y x with
        | true =>
          rw [show lexLt (x :: xs) (y :: ys) = false from by simp [lexLt, h1, h2]] at h
          exact absurd h (by simp)
        | false =>
          have hxy : x.toNat = y.toNat := by
            simp only [charLt, decide_eq_true_eq, decide_eq_false_iff_not] at h1 h2
            omega
          have htail : lexLt xs ys = true := by
            rw [show lexLt (x :: xs) (y :: ys) = lexLt xs ys from by simp [lexLt, h1, h2]] at h
            exact h
          simp only [List.map_cons, List.cons_append, List.length_cons]
          rw [descRune_congr hxy, lexLt_cons_self]
          have e1 : L' + 1 - (ys.length + 1) = L' - ys.length := by omega
          have e2 : L' + 1 - (xs.length + 1) = L' - xs.length := by omega
          rw [e1, e2]
          refine ih L' ys hxs hys ?_ ?_ htail
          · have := hla
            simp at this
            omega
          · have := hlb
            simp at this
            omega

/-- The descending string index (field `s`, pad 16, no armor) used by
the C6 theorems. -/
def descStrIdx6 : Index :=
  { ByEquality "s" with order := { fieldName := "s", type := OrderType.desc } }

/-- Counterexample for C6 as stated: the claim quantifies over all
strings within the pad length, but a NUL character reverses onto
`utf8.MaxRune`, which is also the descending pad character — `"a"`
precedes `"a\x00"` yet their descending encodings are identical, so the
encoding of the larger string does not strictly precede that of the
smaller. -/
theorem c6_counterexample :
    lexLt "a".data "a\x00".data = true ∧
    getOrderedStringFieldKey descStrIdx6 "a\x00" = getOrderedStringFieldKey descStrIdx6 "a" ∧
    lexLt (getOrderedStringFieldKey descStrIdx6 "a\x00").data
      (getOrderedStringFieldKey descStrIdx6 "a").data = false := ⟨rfl, rfl, rfl⟩

/-- C6 (amended): for strings within the pad length over characters that
are neither NUL nor in the band `[0x102000, 0x1027FF]` (whose reversed
rune falls in the surrogate range and is replaced by U+FFFD), the
descending encoding — reversed runes, padded with `utf8.MaxRune`, no
base32 armor — strictly reverses lexicographic order. -/
theorem c6_desc_string_reverses_order (i : Index) (a b : String)
    (hdesc : i.order.type = OrderType.desc) (hb32 : i.base32Encode = false)
    (ha : ∀ c ∈ a.data, goodDescChar c) (hb : ∀ c ∈ b.data, goodDescChar c)
    (hla : a.data.length ≤ i.stringOrderPadLength)
    (hlb : b.data.length ≤ i.stringOrderPadLength)
    (hab : lexLt a.data b.data = true) :
    lexLt (getOrderedStringFieldKey i b).data
      (getOrderedStringFieldKey i a).data = true := by
  rw [getOrdered_desc_data i a hdesc hb32 hla, getOrdered_desc_data i b hdesc hb32 hlb]
  exact lexLt_desc_enc i.stringOrderPadLength a.data b.data ha hb hla hlb hab

/-- Witness for C6: `"apple" < "banana"`, and the descending encoding of
`"banana"` precedes that of `"apple"`. -/
theorem c6_desc_string_reverses_order_witness :
    lexLt (getOrderedStringFieldKey descStrIdx6 "banana").data
      (getOrderedStringFieldKey descStrIdx6 "apple").data = true :=
  c6_desc_string_reverses_order descStrIdx6 "apple" "banana" rfl rfl
    (by decide) (by decide) (by decide) (by decide) (by decide)

/-- The ascending string index (pad 16) used by the C7 theorems. -/
def ascStrIdx7 : Index := ByEquality "s"

/-- Counterexample for C7 as stated: the claim quantifies over every
longer extension of the shorter string, but the pad character is a
space (32), not the least character — extending `"a"` with the control
character `\x01` yields a longer string that encodes strictly *before*
the padded encoding of `"a"`. -/
theorem c7_counterexample :
    lexLt "a".data "a\x01".data = true ∧
    lexLt (getOrderedStringFieldKey ascStrIdx7 "a").data
      (getOrderedStringFieldKey ascStrIdx7 "a\x01").data = false ∧
    lexLt (getOrderedStringFieldKey ascStrIdx7 "a\x01").data
      (getOrderedStringFieldKey ascStrIdx7 "a").data = true := ⟨rfl, rfl, rfl⟩

/-- C7 (amended): for an ascending string index with pad length L, a
string shorter than L encodes strictly before every proper extension of
it whose first added character lies above the space pad character. -/
theorem c7_asc_short_sorts_before_extension (i : Index) (s : String) (c : Char)
    (rest : List Char) (hasc : i.order.type = OrderType.asc)
    (hlen : s.data.length < i.stringOrderPadLength) (hc : 32 < c.toNat) :
    lexLt (getOrderedStringFieldKey i s).data
      (getOrderedStringFieldKey i (String.mk (s.data ++ c :: rest))).data = true := by
  rw [getOrdered_asc_data i s hasc, getOrdered_asc_data i _ hasc]
  rw [if_pos hlen]
  have hsp : charLt ' ' c = true := by
    simp only [charLt, decide_eq_true_eq]
    exact hc
  obtain ⟨k, hk⟩ : ∃ k, i.stringOrderPadLength - s.data.length = k + 1 :=
    ⟨i.stringOrderPadLength - s.data.length - 1, by omega⟩
  rw [hk, List.replicate_succ]
  show lexLt (s.data ++ ' ' :: List.replicate k ' ')
    (if (s.data ++ c :: rest).length < i.stringOrderPadLength then _ else _) = true
  by_cases ht : (s.data ++ c :: rest).length < i.stringOrderPadLength
  · rw [if_pos ht, List.append_assoc, List.cons_append, lexLt_append_left]
    exact lexLt_cons_of_lt hsp _ _
  · rw [if_neg ht, lexLt_append_left]
    exact lexLt_cons_of_lt hsp _ _

/-- Witness for C7: `"ab"` encodes before its extension `"abc"`. -/
theorem c7_asc_short_sorts_before_extension_witness :
    lexLt (getOrderedStringFieldKey ascStrIdx7 "ab").data
      (getOrderedStringFieldKey ascStrIdx7 (String.mk ("ab".data ++ 'c' :: []))).data = true :=
  c7_asc_short_sorts_before_extension ascStrIdx7 "ab" 'c' [] rfl (by decide) (by decide)

/-! ### C10: every write of one `Save` carries the serialized record -/

lemma staleDel_write_mem {ns : String} {blob : Entry} {id : GoValue}
    {old? : Option Entry} {i : Index} {st : Store} {ops : List Op}
    {st1 : Store} {ops1 : List Op}
    (h : staleDel ns blob id old? i st ops = .ok (st1, ops1)) :
    ∀ k v, Op.write k v ∈ ops1 → Op.write k v ∈ ops := by
  cases old? with
  | none =>
    unfold staleDel at h
    injection h with h'
    injection h' with h1 h2
    subst h2
    intro k v hm
    exact hm
  | some o =>
    simp only [staleDel] at h
    split at h
    · split at h
      · exact absurd h (by simp)
      · injection h with h'
        injection h' with h1 h2
        subst h2
        intro k v hm
        rcases List.mem_append.mp hm with hm' | hm'
        · exact hm'
        · simp at hm'
    · injection h with h'
      injection h' with h1 h2
      subst h2
      intro k v hm
      exact hm

lemma saveLoop_write_mem (ns : String) (blob : Entry) (id : GoValue)
    (old? : Option Entry) :
    ∀ (ixs : List Index) (st : Store) (ops : List Op) (k : String) (v : Blob),
      Op.write k v ∈ (saveLoop ns blob id old? ixs st ops).ops →
      Op.write k v ∈ ops ∨ v = blob := by
  intro ixs
  induction ixs with
  | nil =>
    intro st ops k v h
    exact Or.inl h
  | cons i rest ih =>
    intro st ops k v h
    rw [saveLoop] at h
    split at h
    · exact Or.inl h
    · rename_i st1ops1 heq
      split at h
      · exact Or.inl (staleDel_write_mem heq k v h)
      · rcases ih _ _ k v h with h' | h'
        · rcases List.mem_append.mp h' with h'' | h''
          · exact Or.inl (staleDel_write_mem heq k v h'')
          · simp at h''
            exact Or.inr h''.2
        · exact Or.inr h'

/-- C10: every store `Write` issued during a single `Save` call —
successful or not — carries the same serialized record: the (modelled)
JSON serialization of the input.  In particular all index keys written
by one successful `Save` map to that one blob. -/
theorem c10_save_writes_carry_input (M : Model) (m : Entry) (st : Store)
    (k : String) (v : Blob) (h : Op.write k v ∈ (Save M m st).ops) : v = m := by
  unfold Save at h
  split at h
  case h_1 => simp at h
  case h_2 => simp at h
  case h_3 =>
    split at h
    · simp at h
    · simp at h
    · rcases saveLoop_write_mem M.ns m (getField m M.options.idIndex.fieldName) _ _ _ _ k v h with h' | h'
      · simp at h'
      · exact h'

/-- Witness for C10: the identity-index write of a concrete `Save`
carries the record itself. -/
theorem c10_save_writes_carry_input_witness :
    ([("id", GoValue.vstr "1")] : Entry) = [("id", GoValue.vstr "1")] :=
  c10_save_writes_carry_input
    ⟨"user", [], ⟨false, defaultIndex⟩⟩ [("id", GoValue.vstr "1")] []
    "user:byId:1:1" [("id", GoValue.vstr "1")] (by decide)

/-! ### C2: unique-constraint violations abort before any store effect -/

/-- C2: for a model with a declared unique index, when the equality
lookup on the value being saved finds exactly one stored record and that
record's identity differs from the record being saved, `Save` returns
the unique-constraint-violation error having issued no `Write` or
`Delete` (an empty operation list), and the store is unchanged.  The
lookup hypotheses are phrased on the scan the code performs: the probe
key of the unique index's equality query returns exactly the one
conflicting record. -/
theorem c2_unique_violation_no_writes (ns : String) (dbg : Bool) (uIdx : Index)
    (m : Entry) (st : Store) (ipk pk k : String) (e : Entry)
    (hu : uIdx.unique = true)
    (hfn : uIdx.fieldName ≠ "id")
    (hid : queryToListKey ns defaultIndex (defaultIndex.ToQuery (getField m "id")) = .ok ipk)
    (hq : queryToListKey ns uIdx (uIdx.ToQuery (getField m uIdx.fieldName)) = .ok pk)
    (hres : readPrefix st pk = [(k, e)])
    (hdiff : getField e "id" ≠ getField m "id") :
    Save ⟨ns, [uIdx], ⟨dbg, defaultIndex⟩⟩ m st =
      ⟨.goErr "Unique index violated", st, []⟩ := by
  have hm1 : indexMatchesQuery uIdx (Index.ToQuery defaultIndex (getField m "id")) = false := by
    simp [indexMatchesQuery, Index.ToQuery, defaultIndex, ByEquality, hfn]
  have hfid : (defaultIndex.fieldName : String) = "id" := rfl
  have hLid : ListOp ⟨ns, [uIdx], ⟨dbg, defaultIndex⟩⟩
      (Index.ToQuery defaultIndex (getField m "id")) st
      = .ok ((readPrefix st ipk).map (fun kv => kv.2)) := by
    unfold ListOp
    dsimp only
    simp only [List.cons_append, List.nil_append, findMatchingIndex, hm1,
      indexMatchesQuery_toQuery, Bool.false_eq_true, if_false, if_true, ite_false, ite_true]
    rw [hid]
  have hLu : ListOp ⟨ns, [uIdx], ⟨dbg, defaultIndex⟩⟩
      (uIdx.ToQuery (getField m uIdx.fieldName)) st = .ok [e] := by
    unfold ListOp
    dsimp only
    simp only [List.cons_append, List.nil_append, findMatchingIndex,
      indexMatchesQuery_toQuery, if_true, ite_true]
    rw [hq]
    simp [hres]
  have hbne : (getField e "id" != getField m "id") = true := by
    simp [bne_iff_ne, hdiff]
  have hUC : uniqueCheck ⟨ns, [uIdx], ⟨dbg, defaultIndex⟩⟩ m st [uIdx] =
      .goErr "Unique index violated" := by
    unfold uniqueCheck
    dsimp only
    simp only [hu, Bool.not_true, Bool.false_eq_true, if_false, ite_false]
    rw [hLu]
    dsimp only
    rw [hfid]
    simp only [hbne, if_true, ite_true]
  unfold Save
  dsimp only
  rw [hfid, hLid, hUC]

/-- The unique index, model, records and store of the C2 witness: the
spec's email example. -/
def c2uIdx : Index := { ByEquality "email" with unique := true }

def c2M : Model := ⟨"user", [c2uIdx], ⟨false, defaultIndex⟩⟩

def c2m1 : Entry := [("id", GoValue.vstr "1"), ("email", GoValue.vstr "a@x.com")]

def c2m2 : Entry := [("id", GoValue.vstr "2"), ("email", GoValue.vstr "a@x.com")]

def c2Store : Store := (Save c2M c2m1 []).store

/-- Witness for C2: after saving `{id:"1", email:"a@x.com"}`, saving
`{id:"2", email:"a@x.com"}` fails with the unique-violation error and
the store is exactly as the first save left it. -/
theorem c2_unique_violation_no_writes_witness :
    Save c2M c2m2 c2Store = ⟨.goErr "Unique index violated", c2Store, []⟩ :=
  c2_unique_violation_no_writes "user" false c2uIdx c2m2 c2Store
    "user:byId:2"
    "user:byOrderedEmail:a@x.com         "
    "user:byOrderedEmail:a@x.com         :1" c2m1
    rfl (by decide) rfl rfl rfl (by decide)

/-! ### C8: `Delete` removes exactly the identity-index key -/

/-- C8: on a default-configured model, a successful `Delete` issues
exactly one store operation — the deletion of the identity-index key of
the resolved record — and the resulting store is the old store minus
that key: every other key, in particular every secondary-index key of
the record, remains with its blob. -/
theorem c8_delete_only_identity_key (ns : String) (ixs : List Index) (dbg : Bool)
    (q : Query) (st : Store) (e : Entry) (rest : List Entry) (idv : String)
    (hq : indexMatchesQuery defaultIndex q = true)
    (hL : ListOp ⟨ns, ixs, ⟨dbg, defaultIndex⟩⟩ q st = .ok (e :: rest))
    (hid : getField e "id" = GoValue.vstr idv) :
    Delete ⟨ns, ixs, ⟨dbg, defaultIndex⟩⟩ q st =
      ⟨.ok (), storeDelete st (joinColon [ns, "byId", idv, idv]),
        [.del (joinColon [ns, "byId", idv, idv])]⟩ ∧
    ∀ kv ∈ st, kv.1 ≠ joinColon [ns, "byId", idv, idv] →
      kv ∈ (Delete ⟨ns, ixs, ⟨dbg, defaultIndex⟩⟩ q st).store := by
  have hfid : (defaultIndex.fieldName : String) = "id" := rfl
  have hkey : indexToKey ns defaultIndex (GoValue.vstr idv) [("id", GoValue.vstr idv)] true
      = .ok (joinColon [ns, "byId", idv, idv]) := rfl
  have hmain : Delete ⟨ns, ixs, ⟨dbg, defaultIndex⟩⟩ q st =
      ⟨.ok (), storeDelete st (joinColon [ns, "byId", idv, idv]),
        [.del (joinColon [ns, "byId", idv, idv])]⟩ := by
    unfold Delete
    simp only [hq, Bool.not_true, Bool.false_eq_true, if_false, ite_false]
    rw [hL]
    dsimp only
    rw [hfid, hid, hkey]
  refine ⟨hmain, ?_⟩
  intro kv hm hne
  rw [hmain]
  exact List.mem_filter.mpr ⟨hm, by simp [bne_iff_ne, hne]⟩

/-- The model, record and store of the C8 witness: one secondary index
on `slug`, one saved record. -/
def c8M : Model := ⟨"user", [ByEquality "slug"], ⟨false, defaultIndex⟩⟩

def c8m : Entry := [("id", GoValue.vstr "1"), ("slug", GoValue.vstr "a")]

def c8Store : Store := (Save c8M c8m []).store

/-- Witness for C8: deleting the saved record by the identity query
removes exactly the key `user:byId:1:1`; the secondary-index key
of the record stays in the store. -/
theorem c8_delete_only_identity_key_witness :
    Delete c8M (defaultIndex.ToQuery (GoValue.vstr "1")) c8Store =
      ⟨.ok (), storeDelete c8Store (joinColon ["user", "byId", "1", "1"]),
        [.del (joinColon ["user", "byId", "1", "1"])]⟩ ∧
    ∀ kv ∈ c8Store, kv.1 ≠ joinColon ["user", "byId", "1", "1"] →
      kv ∈ (Delete c8M (defaultIndex.ToQuery (GoValue.vstr "1")) c8Store).store :=
  c8_delete_only_identity_key "user" [ByEquality "slug"] false
    (defaultIndex.ToQuery (GoValue.vstr "1")) c8Store c8m [] "1"
    rfl rfl rfl

/-! ### C1: re-saving with a changed indexed value rewrites the index key -/

/-- The model of the C1 theorems: namespace `user`, one declared
equality index on the string field `slug`, default identity index. -/
def c1M : Model := ⟨"user", [ByEquality "slug"], ⟨false, defaultIndex⟩⟩

/-- The C1 record with identity `"1"` and `slug` value `v`. -/
def c1m (v : String) : Entry := [("id", GoValue.vstr "1"), ("slug", GoValue.vstr v)]

/-- The slug-index save key of the C1 record with `slug` value `v`. -/
def c1Key (v : String) : String :=
  joinColon ["user", indexPrefix (ByEquality "slug"),
    getOrderedStringFieldKey (ByEquality "slug") v, "1"]

/-- The slug-index lookup probe for value `v`. -/
def c1Probe (v : String) : String :=
  joinColon ["user", indexPrefix (ByEquality "slug"),
    getOrderedStringFieldKey (ByEquality "slug") v]

/-- The store after saving the C1 record with value `v1` into an empty
store. -/
def c1St1 (v1 : String) : Store := (Save c1M (c1m v1) []).store

/-- The store after then re-saving the same identity with value `v2`. -/
def c1St2 (v1 v2 : String) : Store := (Save c1M (c1m v2) (c1St1 v1)).store

/-- Counterexample for C1 as stated: with the ascending string encoding,
two different values that agree after right-padding (here `"a"` and
`"a "` under pad length 16) produce the same index key, so re-saving
with the changed value deletes and rewrites the *same* key and a lookup
by the old value still finds the record. -/
theorem c1_counterexample :
    getField (c1m "a") "slug" ≠ getField (c1m "a ") "slug" ∧
    ListOp c1M (Index.ToQuery (ByEquality "slug") (GoValue.vstr "a"))
      (c1St2 "a" "a ") = .ok [c1m "a "] := by
  constructor
  · decide
  · rfl

/-- C1 (amended): re-saving the same identity with a changed indexed
value whose encoded fragment differs from the old one (and has the same
encoded length, as all values within the pad length do): the save
deletes the key computed from the previous value, writes the key
computed from the new value (and rewrites the identity key), and
afterwards exactly one live key exists for the declared index — a
lookup by the old value finds nothing, a lookup by the new value finds
exactly the updated record. -/
theorem c1_save_update_single_live_key (v1 v2 : String)
    (hne : getOrderedStringFieldKey (ByEquality "slug") v1 ≠
      getOrderedStringFieldKey (ByEquality "slug") v2)
    (hlen : (getOrderedStringFieldKey (ByEquality "slug") v1).data.length =
      (getOrderedStringFieldKey (ByEquality "slug") v2).data.length) :
    (Save c1M (c1m v2) (c1St1 v1)).ops =
      [Op.del (c1Key v1), Op.write (c1Key v2) (c1m v2),
       Op.write "user:byId:1:1" (c1m v2)] ∧
    ListOp c1M (Index.ToQuery (ByEquality "slug") (GoValue.vstr v1)) (c1St2 v1 v2) =
      .ok [] ∧
    ListOp c1M (Index.ToQuery (ByEquality "slug") (GoValue.vstr v2)) (c1St2 v1 v2) =
      .ok [c1m v2] ∧
    (readPrefix (c1St2 v1 v2) (joinColon ["user", indexPrefix (ByEquality "slug")])).length
      = 1 := by
  have h12 : v1 ≠ v2 := fun h => hne (by rw [h])
  have hdata_ne : (getOrderedStringFieldKey (ByEquality "slug") v1).data ≠
      (getOrderedStringFieldKey (ByEquality "slug") v2).data := by
    intro h
    exact hne (by
      have := congrArg String.mk h
      simpa using this)
  -- The store after the first save.
  have hst1 : c1St1 v1 = [("user:byId:1:1", c1m v1), (c1Key v1, c1m v1)] := rfl
  -- Deleting the stale slug key from it.
  have hdel : storeDelete (c1St1 v1) (c1Key v1) = [("user:byId:1:1", c1m v1)] := by
    rw [hst1]
    unfold storeDelete
    simp only [List.filter,
      show (("user:byId:1:1" : String) != c1Key v1) = true from rfl,
      bne_self_eq_false]
  -- The changed-value test of the write loop.
  have hcondfull : (!(indexesMatch defaultIndex (ByEquality "slug")) &&
      (getField (c1m v1) (ByEquality "slug").fieldName !=
        getField (c1m v2) (ByEquality "slug").fieldName)) = true := by
    show (true && (GoValue.vstr v1 != GoValue.vstr v2)) = true
    rw [Bool.true_and]
    simp only [bne_iff_ne, ne_eq, GoValue.vstr.injEq]
    exact h12
  -- The stale-delete step of the second save.
  have hstale : staleDel "user" (c1m v2) (GoValue.vstr "1") (some (c1m v1))
      (ByEquality "slug") (c1St1 v1) [] =
      .ok ([("user:byId:1:1", c1m v1)], [Op.del (c1Key v1)]) := by
    rw [← hdel]
    simp only [staleDel]
    rw [if_pos hcondfull]
    rfl
  -- The full second save.
  have hsave2 : Save c1M (c1m v2) (c1St1 v1) =
      ⟨.ok (), [("user:byId:1:1", c1m v2), (c1Key v2, c1m v2)],
        [Op.del (c1Key v1), Op.write (c1Key v2) (c1m v2),
         Op.write "user:byId:1:1" (c1m v2)]⟩ := by
    have step1 : Save c1M (c1m v2) (c1St1 v1) =
        saveLoop "user" (c1m v2) (GoValue.vstr "1") (some (c1m v1))
          [ByEquality "slug", defaultIndex] (c1St1 v1) [] := rfl
    rw [step1, saveLoop, hstale]
    rfl
  -- Decompositions of the slug keys and probes at the byte level.
  have hp1 : (c1Probe v1).data = ("user:byOrderedSlug:").data ++
      (getOrderedStringFieldKey (ByEquality "slug") v1).data := rfl
  have hp2 : (c1Probe v2).data = ("user:byOrderedSlug:").data ++
      (getOrderedStringFieldKey (ByEquality "slug") v2).data := rfl
  have hk2raw : (c1Key v2).data = ("user:byOrderedSlug:").data ++
      (((getOrderedStringFieldKey (ByEquality "slug") v2).data ++ [':']) ++ ['1']) := rfl
  have hk2split : (c1Key v2).data = (c1Probe v2).data ++ [':', '1'] := by
    rw [hk2raw, hp2]
    simp [List.append_assoc]
  have hk2assoc : (c1Key v2).data = ("user:byOrderedSlug:").data ++
      ((getOrderedStringFieldKey (ByEquality "slug") v2).data ++ [':', '1']) := by
    rw [hk2raw]
    simp [List.append_assoc]
  -- The old-value probe matches neither remaining key.
  have hpfx12 : (c1Probe v1).data.isPrefixOf (c1Key v2).data = false := by
    rw [hp1, hk2assoc, isPrefixOf_append_left]
    exact isPrefixOf_append_of_len_eq _ hlen hdata_ne
  have hRPa : readPrefix [("user:byId:1:1", c1m v2), (c1Key v2, c1m v2)] (c1Probe v1)
      = [] := by
    unfold readPrefix
    simp only [List.filter,
      show ((c1Probe v1).data.isPrefixOf ("user:byId:1:1" : String).data) = false from rfl,
      hpfx12]
  -- The new-value probe matches exactly the new key.
  have hself2 : (c1Probe v2).data.isPrefixOf (c1Key v2).data = true := by
    rw [hk2split]
    exact isPrefixOf_self_append _ _
  have hRPb : readPrefix [("user:byId:1:1", c1m v2), (c1Key v2, c1m v2)] (c1Probe v2)
      = [(c1Key v2, c1m v2)] := by
    unfold readPrefix
    simp only [List.filter,
      show ((c1Probe v2).data.isPrefixOf ("user:byId:1:1" : String).data) = false from rfl,
      hself2]
  refine ⟨by rw [hsave2], ?_, ?_, ?_⟩
  · show Micro.OpResult.ok ((readPrefix (c1St2 v1 v2) (c1Probe v1)).map (fun kv => kv.2))
      = .ok []
    rw [show c1St2 v1 v2 = (Save c1M (c1m v2) (c1St1 v1)).store from rfl, hsave2]
    rw [show (({ outcome := OpResult.ok (), store := [("user:byId:1:1", c1m v2), (c1Key v2, c1m v2)], ops := [Op.del (c1Key v1), Op.write (c1Key v2) (c1m v2), Op.write "user:byId:1:1" (c1m v2)] } : SaveRes)).store = [("user:byId:1:1", c1m v2), (c1Key v2, c1m v2)] from rfl]
    rw [hRPa]
    rfl
  · show Micro.OpResult.ok ((readPrefix (c1St2 v1 v2) (c1Probe v2)).map (fun kv => kv.2))
      = .ok [c1m v2]
    rw [show c1St2 v1 v2 = (Save c1M (c1m v2) (c1St1 v1)).store from rfl, hsave2]
    rw [show (({ outcome := OpResult.ok (), store := [("user:byId:1:1", c1m v2), (c1Key v2, c1m v2)], ops := [Op.del (c1Key v1), Op.write (c1Key v2) (c1m v2), Op.write "user:byId:1:1" (c1m v2)] } : SaveRes)).store = [("user:byId:1:1", c1m v2), (c1Key v2, c1m v2)] from rfl]
    rw [hRPb]
    rfl
  · rw [show c1St2 v1 v2 = (Save c1M (c1m v2) (c1St1 v1)).store from rfl, hsave2]
    rfl

/-- Witness for C1: the spec's slug example — saving `hi-there`, then
`hello-there`, under one identity. -/
theorem c1_save_update_single_live_key_witness :
    (Save c1M (c1m "hello-there") (c1St1 "hi-there")).ops =
      [Op.del (c1Key "hi-there"), Op.write (c1Key "hello-there") (c1m "hello-there"),
       Op.write "user:byId:1:1" (c1m "hello-there")] ∧
    ListOp c1M (Index.ToQuery (ByEquality "slug") (GoValue.vstr "hi-there"))
      (c1St2 "hi-there" "hello-there") = .ok [] ∧
    ListOp c1M (Index.ToQuery (ByEquality "slug") (GoValue.vstr "hello-there"))
      (c1St2 "hi-there" "hello-there") = .ok [c1m "hello-there"] ∧
    (readPrefix (c1St2 "hi-there" "hello-there")
      (joinColon ["user", indexPrefix (ByEquality "slug")])).length = 1 :=
  c1_save_update_single_live_key "hi-there" "hello-there" (by decide) (by decide)

end Micro
